import Mathlib

/-!
# Verification of the BehaviorTree engine (`BehaviorTree.h`)

A shallow embedding of the behavior-tree engine from `BehaviorTree.h`
(namespace `BHT`): the `NodeState` outcome type, the node hierarchy
(selector / sequence / parallel-sequence branches, condition and action
leaves, decorators with the shipped `Inverter`), the `eval` tick wrapper,
recursive context/debug propagation, and the `Root` / `BehaviorTree`
driver construction.

Node subclasses differ only in their `_evaluate` (and, for decorators,
`_propagate_context`) overrides, so the tree is modelled as one inductive
with a constructor per concrete node class.  The consumer-supplied
virtual methods (`IConditionLeaf::condition`, `IActionLeaf::action`) are
modelled by the value they return on the tick under consideration; the
`IDecorator::decorate` override is modelled by a `NodeState → NodeState`
function carried in the node.  Mutation of the per-node fields
(`state`, `context`, `DEBUG`) is modelled by returning the updated tree,
and `std::cout` tracing by returning the list of printed lines.
C++ exceptions (`std::runtime_error`) are modelled with `Except String`.
-/

namespace BHT

/-- `enum class NodeState` — the three-valued evaluation outcome. -/
inductive NodeState where
  | SUCCESS
  | RUNNING
  | FAILURE
deriving DecidableEq, Repr

/-- The data members every `Node<T>` carries (its `name`, the context
pointer `T* context` modelled as `Option T`, the cached evaluation
`state`, and the `DEBUG` trace flag).  The `parent` back-pointer is
bookkeeping for attachment only and is represented by the tree shape
itself. The base constructor initializes `state = FAILURE`,
`context = nullptr`, `DEBUG = false`. -/
structure NodeData (T : Type) where
  name : String
  context : Option T
  state : NodeState
  DEBUG : Bool

/-- The tree of nodes: one constructor per concrete node class of the
header.  Composite branches (`ISelectorBranch`, `ISequenceBranch`,
`IParalellSequence`) hold the base-class `children` vector; leaves
(`IConditionLeaf`, `IActionLeaf`) hold the consumer-supplied result of
`condition()` / `action()` for the tick; `IDecorator` holds its single
`child` (stored in a dedicated member, not in the base `children`
vector) together with its `decorate` transform. -/
inductive Node (T : Type) where
  | selectorBranch (d : NodeData T) (children : List (Node T))
  | sequenceBranch (d : NodeData T) (children : List (Node T))
  | paralellSequence (d : NodeData T) (children : List (Node T))
  | conditionLeaf (d : NodeData T) (condition : Bool)
  | actionLeaf (d : NodeData T) (action : NodeState)
  | decorator (d : NodeData T) (decorate : NodeState → NodeState) (child : Node T)

/-- The `Node<T>` data members of a node. -/
def dataOf {T : Type} : Node T → NodeData T
  | .selectorBranch d _ => d
  | .sequenceBranch d _ => d
  | .paralellSequence d _ => d
  | .conditionLeaf d _ => d
  | .actionLeaf d _ => d
  | .decorator d _ _ => d

/-- Replace the `Node<T>` data members of a node (field assignment). -/
def setData {T : Type} : Node T → NodeData T → Node T
  | .selectorBranch _ cs, d => .selectorBranch d cs
  | .sequenceBranch _ cs, d => .sequenceBranch d cs
  | .paralellSequence _ cs, d => .paralellSequence d cs
  | .conditionLeaf _ b, d => .conditionLeaf d b
  | .actionLeaf _ a, d => .actionLeaf d a
  | .decorator _ f c, d => .decorator d f c

/-- The cached `state` field. -/
def stateOf {T : Type} (n : Node T) : NodeState := (dataOf n).state

/-- The `name` field. -/
def nameOf {T : Type} (n : Node T) : String := (dataOf n).name

/-- The `DEBUG` field. -/
def debugOf {T : Type} (n : Node T) : Bool := (dataOf n).DEBUG

/-- The `context` field. -/
def contextOf {T : Type} (n : Node T) : Option T := (dataOf n).context

/-- `this->state = s` — assignment to the cached state field. -/
def setState {T : Type} (n : Node T) (s : NodeState) : Node T :=
  setData n { dataOf n with state := s }

/-- The base-class `children` vector.  Composites fill it via `_attach`;
leaves leave it empty; `IDecorator` stores its child in the separate
`child` member and never calls `_attach`, so its `children` vector is
also empty. -/
def childrenOf {T : Type} : Node T → List (Node T)
  | .selectorBranch _ cs => cs
  | .sequenceBranch _ cs => cs
  | .paralellSequence _ cs => cs
  | _ => []

/-- One line printed by `Node::printState` (`name << ": " << state`). -/
def traceLine (name : String) : NodeState → String
  | .SUCCESS => name ++ ": SUCCESS"
  | .FAILURE => name ++ ": FAILURE"
  | .RUNNING => name ++ ": RUNNING"

mutual

/-- `Node::eval`: runs `_evaluate`, stores the result into `state`,
prints the state line when `DEBUG` is set, and returns the stored state.
Returns the updated node, the returned state, and the trace output. -/
def nodeEval {T : Type} (n : Node T) : Node T × NodeState × List String :=
  let r := nodeEvaluate n
  let n2 := setState r.1 r.2.1
  (n2, r.2.1, r.2.2 ++ (if debugOf n2 then [traceLine (nameOf n2) r.2.1] else []))
termination_by (sizeOf n, 1)

/-- The `_evaluate` override of each concrete node class. -/
def nodeEvaluate {T : Type} : Node T → Node T × NodeState × List String
  | .selectorBranch d cs =>
    let r := selScan cs
    (.selectorBranch d r.1, r.2.1, r.2.2)
  | .sequenceBranch d cs =>
    let r := seqScan cs
    (.sequenceBranch d r.1, r.2.1, r.2.2)
  | .paralellSequence d cs =>
    let r := parScan cs true
    (.paralellSequence d r.1, r.2.1, r.2.2)
  | .conditionLeaf d b =>
    (.conditionLeaf d b, if b then .SUCCESS else .FAILURE, [])
  | .actionLeaf d a =>
    (.actionLeaf d a, a, [])
  | .decorator d f c =>
    let r := nodeEval c
    (.decorator d f r.1, f r.2.1, r.2.2)
termination_by n => (sizeOf n, 0)

/-- The loop of `ISelectorBranch::_evaluate`: evaluate each child via
`eval`, return `SUCCESS`/`RUNNING` on the first child whose updated
`state` is `SUCCESS`/`RUNNING` (leaving the remaining children
untouched), fall through on `FAILURE`, and return `FAILURE` after the
loop. -/
def selScan {T : Type} : List (Node T) → List (Node T) × NodeState × List String
  | [] => ([], .FAILURE, [])
  | c :: cs =>
    let r := nodeEval c
    match stateOf r.1 with
    | .SUCCESS => (r.1 :: cs, .SUCCESS, r.2.2)
    | .RUNNING => (r.1 :: cs, .RUNNING, r.2.2)
    | .FAILURE =>
      let r2 := selScan cs
      (r.1 :: r2.1, r2.2.1, r.2.2 ++ r2.2.2)
termination_by cs => (sizeOf cs, 2)

/-- The loop of `ISequenceBranch::_evaluate`: evaluate each child via
`eval`; the first child whose updated `state` is not `SUCCESS` stops the
loop and its state is returned (remaining children untouched); after a
full loop return `SUCCESS`. -/
def seqScan {T : Type} : List (Node T) → List (Node T) × NodeState × List String
  | [] => ([], .SUCCESS, [])
  | c :: cs =>
    let r := nodeEval c
    match stateOf r.1 with
    | .SUCCESS =>
      let r2 := seqScan cs
      (r.1 :: r2.1, r2.2.1, r.2.2 ++ r2.2.2)
    | s => (r.1 :: cs, s, r.2.2)
termination_by cs => (sizeOf cs, 2)

/-- The loop of `IParalellSequence::_evaluate` with its `allSuccess`
accumulator: evaluate each child via `eval`; return the child's state on
the first `FAILURE` (remaining children untouched); record `RUNNING`
children by clearing `allSuccess`; after a full loop return `RUNNING`
when `allSuccess` was cleared, else `SUCCESS`. -/
def parScan {T : Type} : List (Node T) → Bool → List (Node T) × NodeState × List String
  | [], allSuccess => ([], if allSuccess then .SUCCESS else .RUNNING, [])
  | c :: cs, allSuccess =>
    let r := nodeEval c
    match stateOf r.1 with
    | .FAILURE => (r.1 :: cs, .FAILURE, r.2.2)
    | .RUNNING =>
      let r2 := parScan cs false
      (r.1 :: r2.1, r2.2.1, r.2.2 ++ r2.2.2)
    | .SUCCESS =>
      let r2 := parScan cs allSuccess
      (r.1 :: r2.1, r2.2.1, r.2.2 ++ r2.2.2)
termination_by cs _ => (sizeOf cs, 2)

end

/-- The updated tree after one `eval` tick of `n`. -/
def evalTree {T : Type} (n : Node T) : Node T := (nodeEval n).1

/-- The `NodeState` returned by one `eval` tick of `n`. -/
def evalStatus {T : Type} (n : Node T) : NodeState := (nodeEval n).2.1

/-- The lines printed during one `eval` tick of `n`. -/
def evalTrace {T : Type} (n : Node T) : List String := (nodeEval n).2.2

mutual

/-- `_propagate_context` invoked on a node whose `context` and `DEBUG`
fields hold `myCtx` and `myDebug` at call time (the caller — parent node
or `Root` — has just assigned them; for a direct invocation they are the
node's own stored fields, see `propagateTop`).  The base
`Node::_propagate_context` override (used by branches and leaves) throws
`"Context not initialized"` when the context is null and otherwise, for
each child in order, sets the child's `DEBUG` to `true` when its own
`DEBUG` is set, assigns its context to the child, and recurses.
`IDecorator::_propagate_context` instead performs no null check, assigns
its context to its single child, overwrites the child's `DEBUG` with its
own, and recurses.  Returns the node with its (assigned) fields and its
recursively updated descendants. -/
def propagateNode {T : Type} (myCtx : Option T) (myDebug : Bool) :
    Node T → Except String (Node T)
  | .selectorBranch d cs =>
    match myCtx with
    | none => .error "Context not initialized"
    | some c =>
      (propChildren (some c) myDebug cs).map
        (fun cs2 => .selectorBranch { d with context := some c, DEBUG := myDebug } cs2)
  | .sequenceBranch d cs =>
    match myCtx with
    | none => .error "Context not initialized"
    | some c =>
      (propChildren (some c) myDebug cs).map
        (fun cs2 => .sequenceBranch { d with context := some c, DEBUG := myDebug } cs2)
  | .paralellSequence d cs =>
    match myCtx with
    | none => .error "Context not initialized"
    | some c =>
      (propChildren (some c) myDebug cs).map
        (fun cs2 => .paralellSequence { d with context := some c, DEBUG := myDebug } cs2)
  | .conditionLeaf d b =>
    match myCtx with
    | none => .error "Context not initialized"
    | some c => .ok (.conditionLeaf { d with context := some c, DEBUG := myDebug } b)
  | .actionLeaf d a =>
    match myCtx with
    | none => .error "Context not initialized"
    | some c => .ok (.actionLeaf { d with context := some c, DEBUG := myDebug } a)
  | .decorator d f c =>
    (propagateNode myCtx myDebug c).map
      (fun c2 => .decorator { d with context := myCtx, DEBUG := myDebug } f c2)
termination_by n => sizeOf n

/-- The child loop of the base `Node::_propagate_context`: for each
child in order, `if (this->DEBUG) node->DEBUG = true`, assign the
parent's context, and recurse into the child; a thrown error aborts the
loop. -/
def propChildren {T : Type} (myCtx : Option T) (myDebug : Bool) :
    List (Node T) → Except String (List (Node T))
  | [] => .ok []
  | c :: cs => do
    let c2 ← propagateNode myCtx (if myDebug then true else debugOf c) c
    let cs2 ← propChildren myCtx myDebug cs
    .ok (c2 :: cs2)
termination_by cs => sizeOf cs

end

/-- `_propagate_context` invoked directly on a node: the call-time
fields are the node's own stored `context` and `DEBUG`. -/
def propagateTop {T : Type} (n : Node T) : Except String (Node T) :=
  propagateNode (contextOf n) (debugOf n) n

mutual

/-- `true` when the `DEBUG` flag is set on a node and on every
descendant (decorator children included). -/
def allDebug {T : Type} : Node T → Bool
  | .selectorBranch d cs => d.DEBUG && allDebugList cs
  | .sequenceBranch d cs => d.DEBUG && allDebugList cs
  | .paralellSequence d cs => d.DEBUG && allDebugList cs
  | .conditionLeaf d _ => d.DEBUG
  | .actionLeaf d _ => d.DEBUG
  | .decorator d _ c => d.DEBUG && allDebug c
termination_by n => sizeOf n

/-- `allDebug` over a list of nodes. -/
def allDebugList {T : Type} : List (Node T) → Bool
  | [] => true
  | c :: cs => allDebug c && allDebugList cs
termination_by cs => sizeOf cs

end

/-- The `Root<T>` node: its base data is `("root", FAILURE)` and it
holds the single top-level `child`.  (Only the members the driver
observes are kept.) -/
structure Root (T : Type) where
  context : Option T
  state : NodeState
  child : Node T

/-- The `Root<T>` constructor: stores the child and the context, then
runs its `_propagate_context` override, which throws
`"Context not initialized."` when the context is null and otherwise
assigns the context to the child and invokes the child's
`_propagate_context` (the child's own `DEBUG` is left as stored). -/
def mkRoot {T : Type} (context : Option T) (tree : Node T) : Except String (Root T) :=
  match context with
  | none => .error "Context not initialized."
  | some c =>
    (propagateNode (some c) (debugOf tree) tree).map
      (fun t => { context := some c, state := .FAILURE, child := t })

/-- The `BehaviorTree<T>` constructor: builds the `Root` from the
context and the top-level node; a throw from the `Root` constructor
escapes to the consumer. -/
def mkBehaviorTree {T : Type} (context : Option T) (tree : Node T) :
    Except String (Root T) :=
  mkRoot context tree

/-- `Inverter::decorate`: the three `if` statements inverting `SUCCESS`
and `FAILURE` and passing `RUNNING` through.  (In the header the third
`if` is the last statement of the function; since `NodeState` has
exactly the three tested values, that branch is the residual case.) -/
def invert (childEvaluation : NodeState) : NodeState :=
  if childEvaluation = .SUCCESS then .FAILURE
  else if childEvaluation = .FAILURE then .SUCCESS
  else .RUNNING

/-- The `DEBUG` field of a decorator's single child (`false` on any
other node kind); an observer for concrete propagation checks. -/
def decoratorChildDebug {T : Type} : Node T → Bool
  | .decorator _ _ c => debugOf c
  | _ => false

/-- Fixture: freshly constructed node data (name `"n"`, `context`
null, `state` `FAILURE`, `DEBUG` off). -/
def exData : NodeData Nat := ⟨"n", none, NodeState.FAILURE, false⟩

/-- Fixture: a condition leaf whose `condition()` returns `true`. -/
def exTrue : Node Nat := .conditionLeaf exData true

/-- Fixture: a condition leaf whose `condition()` returns `false`. -/
def exFalse : Node Nat := .conditionLeaf exData false

/-- Fixture: an action leaf whose `action()` returns `RUNNING`. -/
def exRun : Node Nat := .actionLeaf exData .RUNNING

/-- Fixture: a condition leaf with its `DEBUG` flag set by the consumer
before propagation. -/
def cexLeaf : Node Nat := .conditionLeaf ⟨"leaf", none, NodeState.FAILURE, true⟩ true

/-- Fixture: an `Inverter` with `DEBUG` off wrapping `cexLeaf`. -/
def cexTree : Node Nat := .decorator ⟨"Inverter", some 0, NodeState.FAILURE, false⟩ invert cexLeaf

/-! ## Basic lemmas about the embedding -/

theorem dataOf_setData {T : Type} (n : Node T) (d : NodeData T) :
    dataOf (setData n d) = d := by
  cases n <;> rfl

theorem stateOf_setState {T : Type} (n : Node T) (s : NodeState) :
    stateOf (setState n s) = s := by
  simp [stateOf, setState, dataOf_setData]

theorem nameOf_setState {T : Type} (n : Node T) (s : NodeState) :
    nameOf (setState n s) = nameOf n := by
  simp [nameOf, setState, dataOf_setData]

theorem debugOf_setState {T : Type} (n : Node T) (s : NodeState) :
    debugOf (setState n s) = debugOf n := by
  simp [debugOf, setState, dataOf_setData]

/-- `_evaluate` mutates only children states, never the node's own data
members. -/
theorem dataOf_nodeEvaluate {T : Type} (n : Node T) :
    dataOf (nodeEvaluate n).1 = dataOf n := by
  cases n <;> simp [nodeEvaluate, dataOf]

/-- The state returned by `eval` is the one `_evaluate` produced. -/
theorem evalStatus_eq_evaluate {T : Type} (n : Node T) :
    evalStatus n = (nodeEvaluate n).2.1 := by
  simp [evalStatus, nodeEval]

/-- After `eval`, the stored `state` equals the returned state. -/
theorem stateOf_nodeEval_fst {T : Type} (n : Node T) :
    stateOf (nodeEval n).1 = (nodeEval n).2.1 := by
  rw [nodeEval]
  simp [stateOf_setState]

/-- A selector scan over children that all evaluate to `FAILURE` (in
particular an empty list) yields `FAILURE`. -/
theorem selScan_all_failure {T : Type} (cs : List (Node T))
    (h : ∀ c ∈ cs, evalStatus c = .FAILURE) :
    (selScan cs).2.1 = .FAILURE := by
  induction cs with
  | nil => rw [selScan]
  | cons c cs ih =>
    have hc : stateOf (nodeEval c).1 = .FAILURE := by
      rw [stateOf_nodeEval_fst]
      exact h c (by simp)
    rw [selScan]
    simp only [hc]
    exact ih (fun b hb => h b (by simp [hb]))

/-- A selector scan stops at the first child that does not evaluate to
`FAILURE`: it returns that child's status and leaves the children after
it untouched. -/
theorem selScan_first {T : Type} (pre : List (Node T)) (c : Node T) (post : List (Node T))
    (hpre : ∀ b ∈ pre, evalStatus b = .FAILURE) (hc : evalStatus c ≠ .FAILURE) :
    (selScan (pre ++ c :: post)).2.1 = evalStatus c
    ∧ (selScan (pre ++ c :: post)).1.drop (pre.length + 1) = post := by
  induction pre with
  | nil =>
    have hs : stateOf (nodeEval c).1 = evalStatus c := by
      rw [stateOf_nodeEval_fst]; rfl
    simp only [List.nil_append, List.length_nil, Nat.zero_add]
    rw [selScan]
    simp only [hs]
    cases h2 : evalStatus c with
    | SUCCESS => simp
    | RUNNING => simp
    | FAILURE => exact absurd h2 hc
  | cons b pre ih =>
    have hb : stateOf (nodeEval b).1 = .FAILURE := by
      rw [stateOf_nodeEval_fst]
      exact hpre b (by simp)
    rw [List.cons_append, selScan]
    simp only [hb, List.length_cons]
    have ih2 := ih (fun x hx => hpre x (by simp [hx]))
    exact ⟨ih2.1, by simpa using ih2.2⟩

/-- A sequence scan over children that all evaluate to `SUCCESS` (in
particular an empty list) yields `SUCCESS`. -/
theorem seqScan_all_success {T : Type} (cs : List (Node T))
    (h : ∀ c ∈ cs, evalStatus c = .SUCCESS) :
    (seqScan cs).2.1 = .SUCCESS := by
  induction cs with
  | nil => rw [seqScan]
  | cons c cs ih =>
    have hc : stateOf (nodeEval c).1 = .SUCCESS := by
      rw [stateOf_nodeEval_fst]
      exact h c (by simp)
    rw [seqScan]
    simp only [hc]
    exact ih (fun b hb => h b (by simp [hb]))

/-- A sequence scan stops at the first child that does not evaluate to
`SUCCESS`: it returns that child's status and leaves the children after
it untouched. -/
theorem seqScan_first {T : Type} (pre : List (Node T)) (c : Node T) (post : List (Node T))
    (hpre : ∀ b ∈ pre, evalStatus b = .SUCCESS) (hc : evalStatus c ≠ .SUCCESS) :
    (seqScan (pre ++ c :: post)).2.1 = evalStatus c
    ∧ (seqScan (pre ++ c :: post)).1.drop (pre.length + 1) = post := by
  induction pre with
  | nil =>
    have hs : stateOf (nodeEval c).1 = evalStatus c := by
      rw [stateOf_nodeEval_fst]; rfl
    simp only [List.nil_append, List.length_nil, Nat.zero_add]
    rw [seqScan]
    simp only [hs]
    cases h2 : evalStatus c with
    | SUCCESS => exact absurd h2 hc
    | RUNNING => simp
    | FAILURE => simp
  | cons b pre ih =>
    have hb : stateOf (nodeEval b).1 = .SUCCESS := by
      rw [stateOf_nodeEval_fst]
      exact hpre b (by simp)
    rw [List.cons_append, seqScan]
    simp only [hb, List.length_cons]
    have ih2 := ih (fun x hx => hpre x (by simp [hx]))
    exact ⟨ih2.1, by simpa using ih2.2⟩

/-- A parallel-sequence scan containing a child that evaluates to
`FAILURE` yields `FAILURE`, and the children after that child are left
untouched (the scan stops at the first failing child, which is at or
before it). -/
theorem parScan_failure {T : Type} (pre : List (Node T)) (c : Node T) (post : List (Node T))
    (b : Bool) (hc : evalStatus c = .FAILURE) :
    (parScan (pre ++ c :: post) b).2.1 = .FAILURE
    ∧ (parScan (pre ++ c :: post) b).1.drop (pre.length + 1) = post := by
  induction pre generalizing b with
  | nil =>
    have hs : stateOf (nodeEval c).1 = .FAILURE := by
      rw [stateOf_nodeEval_fst]
      exact hc
    simp only [List.nil_append, List.length_nil, Nat.zero_add]
    rw [parScan]
    simp only [hs]
    simp
  | cons x pre ih =>
    have hs : stateOf (nodeEval x).1 = evalStatus x := by
      rw [stateOf_nodeEval_fst]; rfl
    rw [List.cons_append, parScan]
    simp only [hs, List.length_cons]
    cases h2 : evalStatus x with
    | SUCCESS =>
      have ih2 := ih b
      exact ⟨ih2.1, by simpa using ih2.2⟩
    | RUNNING =>
      have ih2 := ih false
      exact ⟨ih2.1, by simpa using ih2.2⟩
    | FAILURE => simp

/-- A parallel-sequence scan with no failing child evaluates every
child exactly once and yields `SUCCESS` when the `allSuccess`
accumulator is set and no child evaluates to `RUNNING`, else
`RUNNING`. -/
theorem parScan_no_failure {T : Type} (cs : List (Node T)) (b : Bool)
    (h : ∀ c ∈ cs, evalStatus c ≠ .FAILURE) :
    (parScan cs b).1 = cs.map evalTree
    ∧ (parScan cs b).2.1 =
        (if b && cs.all (fun c => !(evalStatus c == .RUNNING)) then .SUCCESS else .RUNNING) := by
  induction cs generalizing b with
  | nil => rw [parScan]; simp
  | cons c cs ih =>
    have hs : stateOf (nodeEval c).1 = evalStatus c := by
      rw [stateOf_nodeEval_fst]; rfl
    rw [parScan]
    simp only [hs]
    cases h2 : evalStatus c with
    | SUCCESS =>
      have ih2 := ih b (fun x hx => h x (by simp [hx]))
      refine ⟨by simp [ih2.1, evalTree], ?_⟩
      simp [ih2.2, h2]
    | RUNNING =>
      have ih2 := ih false (fun x hx => h x (by simp [hx]))
      refine ⟨by simp [ih2.1, evalTree], ?_⟩
      simp [ih2.2, h2]
    | FAILURE => exact absurd h2 (h c (by simp))

/-- Running `_propagate_context` with a null context throws
`"Context not initialized"` for every node kind: branches and leaves
throw at their own check; a decorator (whose override has no check)
passes the null context to its single child, whose own
`_propagate_context` then throws. -/
theorem propagateNode_none {T : Type} (dbg : Bool) : (n : Node T) →
    propagateNode none dbg n = .error "Context not initialized"
  | .selectorBranch _ _ => by rw [propagateNode]
  | .sequenceBranch _ _ => by rw [propagateNode]
  | .paralellSequence _ _ => by rw [propagateNode]
  | .conditionLeaf _ _ => by rw [propagateNode]
  | .actionLeaf _ _ => by rw [propagateNode]
  | .decorator d f c => by rw [propagateNode, propagateNode_none dbg c]; rfl

mutual

/-- Running `_propagate_context` with a non-null context set at call
time never throws, and leaves the node's `DEBUG` flag as assigned by
the caller. -/
theorem propagateNode_some_ok {T : Type} (c : T) (dbg : Bool) : (n : Node T) →
    ∃ n2, propagateNode (some c) dbg n = .ok n2 ∧ debugOf n2 = dbg
  | .selectorBranch d cs => by
    obtain ⟨cs2, h⟩ := propChildren_some_ok c dbg cs
    refine ⟨.selectorBranch { d with context := some c, DEBUG := dbg } cs2, ?_, rfl⟩
    simp only [propagateNode]
    rw [h]
    rfl
  | .sequenceBranch d cs => by
    obtain ⟨cs2, h⟩ := propChildren_some_ok c dbg cs
    refine ⟨.sequenceBranch { d with context := some c, DEBUG := dbg } cs2, ?_, rfl⟩
    simp only [propagateNode]
    rw [h]
    rfl
  | .paralellSequence d cs => by
    obtain ⟨cs2, h⟩ := propChildren_some_ok c dbg cs
    refine ⟨.paralellSequence { d with context := some c, DEBUG := dbg } cs2, ?_, rfl⟩
    simp only [propagateNode]
    rw [h]
    rfl
  | .conditionLeaf d b =>
    ⟨.conditionLeaf { d with context := some c, DEBUG := dbg } b, by rw [propagateNode], rfl⟩
  | .actionLeaf d a =>
    ⟨.actionLeaf { d with context := some c, DEBUG := dbg } a, by rw [propagateNode], rfl⟩
  | .decorator d f ch => by
    obtain ⟨c2, h, _⟩ := propagateNode_some_ok c dbg ch
    refine ⟨.decorator { d with context := some c, DEBUG := dbg } f c2, ?_, rfl⟩
    rw [propagateNode, h]
    rfl

/-- The child loop of `_propagate_context` never throws when the
parent's context is non-null. -/
theorem propChildren_some_ok {T : Type} (c : T) (dbg : Bool) : (cs : List (Node T)) →
    ∃ cs2, propChildren (some c) dbg cs = .ok cs2
  | [] => ⟨[], by rw [propChildren]⟩
  | x :: cs => by
    obtain ⟨x2, hx, _⟩ := propagateNode_some_ok c (if dbg then true else debugOf x) x
    obtain ⟨cs2, hcs⟩ := propChildren_some_ok c dbg cs
    exact ⟨x2 :: cs2, by rw [propChildren, hx, hcs]; rfl⟩

end

mutual

/-- When `_propagate_context` runs on a node whose `DEBUG` flag is set
at call time (and whose context is non-null), every node of the
resulting subtree has its `DEBUG` flag set. -/
theorem propagateNode_true_allDebug {T : Type} (c : T) : (n : Node T) →
    ∃ n2, propagateNode (some c) true n = .ok n2 ∧ allDebug n2 = true
  | .selectorBranch d cs => by
    obtain ⟨cs2, h, hall⟩ := propChildren_true_allDebug c cs
    refine ⟨.selectorBranch { d with context := some c, DEBUG := true } cs2, ?_, ?_⟩
    case _ => simp only [propagateNode]; rw [h]; rfl
    case _ => rw [allDebug]; simpa using hall
  | .sequenceBranch d cs => by
    obtain ⟨cs2, h, hall⟩ := propChildren_true_allDebug c cs
    refine ⟨.sequenceBranch { d with context := some c, DEBUG := true } cs2, ?_, ?_⟩
    case _ => simp only [propagateNode]; rw [h]; rfl
    case _ => rw [allDebug]; simpa using hall
  | .paralellSequence d cs => by
    obtain ⟨cs2, h, hall⟩ := propChildren_true_allDebug c cs
    refine ⟨.paralellSequence { d with context := some c, DEBUG := true } cs2, ?_, ?_⟩
    case _ => simp only [propagateNode]; rw [h]; rfl
    case _ => rw [allDebug]; simpa using hall
  | .conditionLeaf d b =>
    ⟨.conditionLeaf { d with context := some c, DEBUG := true } b,
      by rw [propagateNode], by rw [allDebug]⟩
  | .actionLeaf d a =>
    ⟨.actionLeaf { d with context := some c, DEBUG := true } a,
      by rw [propagateNode], by rw [allDebug]⟩
  | .decorator d f ch => by
    obtain ⟨c2, h, hall⟩ := propagateNode_true_allDebug c ch
    refine ⟨.decorator { d with context := some c, DEBUG := true } f c2, ?_, ?_⟩
    case _ => rw [propagateNode, h]; rfl
    case _ => rw [allDebug]; simpa using hall

/-- The child loop of `_propagate_context` with the parent's `DEBUG`
flag set forces the flag on in every resulting subtree. -/
theorem propChildren_true_allDebug {T : Type} (c : T) : (cs : List (Node T)) →
    ∃ cs2, propChildren (some c) true cs = .ok cs2 ∧ allDebugList cs2 = true
  | [] => ⟨[], by rw [propChildren], by rw [allDebugList]⟩
  | x :: cs => by
    obtain ⟨x2, hx, hxall⟩ := propagateNode_true_allDebug c x
    obtain ⟨cs2, hcs, hcsall⟩ := propChildren_true_allDebug c cs
    refine ⟨x2 :: cs2, by rw [propChildren]; simp only [if_true]; rw [hx, hcs]; rfl, ?_⟩
    rw [allDebugList]
    simp [hxall, hcsall]

end

theorem evalStatus_selector {T : Type} (d : NodeData T) (cs : List (Node T)) :
    evalStatus (.selectorBranch d cs) = (selScan cs).2.1 := by
  rw [evalStatus_eq_evaluate, nodeEvaluate]

theorem children_evalTree_selector {T : Type} (d : NodeData T) (cs : List (Node T)) :
    childrenOf (evalTree (.selectorBranch d cs)) = (selScan cs).1 := by
  rw [evalTree, nodeEval, nodeEvaluate]
  simp [setState, setData, dataOf, childrenOf]

theorem evalStatus_sequence {T : Type} (d : NodeData T) (cs : List (Node T)) :
    evalStatus (.sequenceBranch d cs) = (seqScan cs).2.1 := by
  rw [evalStatus_eq_evaluate, nodeEvaluate]

theorem children_evalTree_sequence {T : Type} (d : NodeData T) (cs : List (Node T)) :
    childrenOf (evalTree (.sequenceBranch d cs)) = (seqScan cs).1 := by
  rw [evalTree, nodeEval, nodeEvaluate]
  simp [setState, setData, dataOf, childrenOf]

theorem evalStatus_paralell {T : Type} (d : NodeData T) (cs : List (Node T)) :
    evalStatus (.paralellSequence d cs) = (parScan cs true).2.1 := by
  rw [evalStatus_eq_evaluate, nodeEvaluate]

theorem children_evalTree_paralell {T : Type} (d : NodeData T) (cs : List (Node T)) :
    childrenOf (evalTree (.paralellSequence d cs)) = (parScan cs true).1 := by
  rw [evalTree, nodeEval, nodeEvaluate]
  simp [setState, setData, dataOf, childrenOf]

/-! ## Claim theorems -/

/-- **C1** — A Selector evaluates its children left-to-right: with any
children and any statuses they evaluate to, if every child evaluates to
`FAILURE` (in particular with zero children) the Selector returns
`FAILURE`; and whenever the children split as `pre ++ x :: post` with
every child of `pre` evaluating to `FAILURE` and `x` not evaluating to
`FAILURE` (so `x` is the first child returning `SUCCESS` or `RUNNING`),
the Selector returns `x`'s status — `SUCCESS` on the first `SUCCESS`,
`RUNNING` on the first `RUNNING` — and the siblings after `x` are not
evaluated (they are left exactly as they were). -/
theorem selector_semantics {T : Type} (d : NodeData T) (cs : List (Node T)) :
    ((∀ c ∈ cs, evalStatus c = .FAILURE) →
      evalStatus (.selectorBranch d cs) = .FAILURE)
    ∧ (∀ pre x post, cs = pre ++ x :: post →
        (∀ b ∈ pre, evalStatus b = .FAILURE) →
        evalStatus x ≠ .FAILURE →
        evalStatus (.selectorBranch d cs) = evalStatus x
        ∧ (childrenOf (evalTree (.selectorBranch d cs))).drop (pre.length + 1) = post) := by
  constructor
  · intro h
    rw [evalStatus_selector]
    exact selScan_all_failure cs h
  · intro pre x post hcs hpre hx
    subst hcs
    have h := selScan_first pre x post hpre hx
    rw [evalStatus_selector, children_evalTree_selector]
    exact h

/-- Witness for `selector_semantics`: Selector([`FAILURE` leaf,
`RUNNING` leaf, `SUCCESS` leaf]) returns `RUNNING` and does not touch
the third leaf. -/
theorem selector_semantics_witness :
    (∀ b ∈ [exFalse], evalStatus b = .FAILURE)
    ∧ evalStatus exRun ≠ .FAILURE
    ∧ evalStatus (.selectorBranch exData [exFalse, exRun, exTrue]) = evalStatus exRun
    ∧ (childrenOf (evalTree (.selectorBranch exData [exFalse, exRun, exTrue]))).drop 2
        = [exTrue] := by
  have h1 : ∀ b ∈ [exFalse], evalStatus b = .FAILURE := by
    intro b hb
    simp only [List.mem_singleton] at hb
    subst hb
    simp [exFalse, exData, evalStatus, nodeEval, nodeEvaluate, setState, setData, dataOf,
      debugOf]
  have h2 : evalStatus exRun ≠ .FAILURE := by
    simp [exRun, exData, evalStatus, nodeEval, nodeEvaluate, setState, setData, dataOf,
      debugOf]
  have h := (selector_semantics exData [exFalse, exRun, exTrue]).2 [exFalse] exRun [exTrue]
    rfl h1 h2
  exact ⟨h1, h2, h.1, h.2⟩

/-- **C2** — A Sequence evaluates its children left-to-right: with any
children and any statuses they evaluate to, if every child evaluates to
`SUCCESS` (in particular with zero children) the Sequence returns
`SUCCESS`; and whenever the children split as `pre ++ x :: post` with
every child of `pre` evaluating to `SUCCESS` and `x` not evaluating to
`SUCCESS` (so `x` is the first child whose result is not `SUCCESS`),
the Sequence stops there and returns `x`'s status (`FAILURE` or
`RUNNING`), and the siblings after `x` are not evaluated (they are left
exactly as they were). -/
theorem sequence_semantics {T : Type} (d : NodeData T) (cs : List (Node T)) :
    ((∀ c ∈ cs, evalStatus c = .SUCCESS) →
      evalStatus (.sequenceBranch d cs) = .SUCCESS)
    ∧ (∀ pre x post, cs = pre ++ x :: post →
        (∀ b ∈ pre, evalStatus b = .SUCCESS) →
        evalStatus x ≠ .SUCCESS →
        evalStatus (.sequenceBranch d cs) = evalStatus x
        ∧ (childrenOf (evalTree (.sequenceBranch d cs))).drop (pre.length + 1) = post) := by
  constructor
  · intro h
    rw [evalStatus_sequence]
    exact seqScan_all_success cs h
  · intro pre x post hcs hpre hx
    subst hcs
    have h := seqScan_first pre x post hpre hx
    rw [evalStatus_sequence, children_evalTree_sequence]
    exact h

/-- Witness for `sequence_semantics`: Sequence([`SUCCESS` leaf,
`RUNNING` leaf, `SUCCESS` leaf]) returns `RUNNING` and does not touch
the third leaf. -/
theorem sequence_semantics_witness :
    (∀ b ∈ [exTrue], evalStatus b = .SUCCESS)
    ∧ evalStatus exRun ≠ .SUCCESS
    ∧ evalStatus (.sequenceBranch exData [exTrue, exRun, exTrue]) = evalStatus exRun
    ∧ (childrenOf (evalTree (.sequenceBranch exData [exTrue, exRun, exTrue]))).drop 2
        = [exTrue] := by
  have h1 : ∀ b ∈ [exTrue], evalStatus b = .SUCCESS := by
    intro b hb
    simp only [List.mem_singleton] at hb
    subst hb
    simp [exTrue, exData, evalStatus, nodeEval, nodeEvaluate, setState, setData, dataOf,
      debugOf]
  have h2 : evalStatus exRun ≠ .SUCCESS := by
    simp [exRun, exData, evalStatus, nodeEval, nodeEvaluate, setState, setData, dataOf,
      debugOf]
  have h := (sequence_semantics exData [exTrue, exRun, exTrue]).2 [exTrue] exRun [exTrue]
    rfl h1 h2
  exact ⟨h1, h2, h.1, h.2⟩

/-- **C3** — A ParallelSequence with any children and any statuses they
evaluate to: whenever the children split as `pre ++ x :: post` with `x`
evaluating to `FAILURE`, the node returns `FAILURE` and the siblings
after `x` are not evaluated (they are left exactly as they were); and
if no child evaluates to `FAILURE`, every child is evaluated exactly
once — a `RUNNING` child does not stop the scan — and the node returns
`RUNNING` if at least one child evaluated to `RUNNING`, else `SUCCESS`
(in particular `SUCCESS` with zero children). -/
theorem paralell_semantics {T : Type} (d : NodeData T) (cs : List (Node T)) :
    (∀ pre x post, cs = pre ++ x :: post →
        evalStatus x = .FAILURE →
        evalStatus (.paralellSequence d cs) = .FAILURE
        ∧ (childrenOf (evalTree (.paralellSequence d cs))).drop (pre.length + 1) = post)
    ∧ ((∀ c ∈ cs, evalStatus c ≠ .FAILURE) →
        childrenOf (evalTree (.paralellSequence d cs)) = cs.map evalTree
        ∧ evalStatus (.paralellSequence d cs) =
            (if cs.any (fun c => evalStatus c == .RUNNING) then .RUNNING else .SUCCESS)) := by
  constructor
  · intro pre x post hcs hx
    subst hcs
    have h := parScan_failure pre x post true hx
    rw [evalStatus_paralell, children_evalTree_paralell]
    exact h
  · intro h
    have h2 := parScan_no_failure cs true h
    rw [evalStatus_paralell, children_evalTree_paralell]
    refine ⟨h2.1, ?_⟩
    rw [h2.2]
    rcases h3 : cs.any (fun c => evalStatus c == .RUNNING) with _ | _
    · have : cs.all (fun c => !(evalStatus c == .RUNNING)) = true := by
        rw [List.all_eq_not_any_not]
        simp only [Bool.not_not]
        rw [h3]
        rfl
      rw [this]
      rfl
    · have : cs.all (fun c => !(evalStatus c == .RUNNING)) = false := by
        rw [List.all_eq_not_any_not]
        simp only [Bool.not_not]
        rw [h3]
        rfl
      rw [this]
      rfl

/-- Witness for `paralell_semantics`:
ParallelSequence([`RUNNING` leaf, `FAILURE` leaf]) returns `FAILURE`
(the second child's failure short-circuits even though the first was
still running), and ParallelSequence([`RUNNING` leaf, `SUCCESS` leaf])
evaluates both children and returns `RUNNING`. -/
theorem paralell_semantics_witness :
    evalStatus exFalse = .FAILURE
    ∧ evalStatus (.paralellSequence exData [exRun, exFalse]) = .FAILURE
    ∧ (childrenOf (evalTree (.paralellSequence exData [exRun, exFalse]))).drop 2 = []
    ∧ (∀ c ∈ [exRun, exTrue], evalStatus c ≠ .FAILURE)
    ∧ childrenOf (evalTree (.paralellSequence exData [exRun, exTrue]))
        = [exRun, exTrue].map evalTree
    ∧ evalStatus (.paralellSequence exData [exRun, exTrue]) = .RUNNING := by
  have hsF : evalStatus exFalse = .FAILURE := by
    simp [exFalse, exData, evalStatus, nodeEval, nodeEvaluate, setState, setData, dataOf,
      debugOf]
  have hsR : evalStatus exRun = .RUNNING := by
    simp [exRun, exData, evalStatus, nodeEval, nodeEvaluate, setState, setData, dataOf,
      debugOf]
  have hsT : evalStatus exTrue = .SUCCESS := by
    simp [exTrue, exData, evalStatus, nodeEval, nodeEvaluate, setState, setData, dataOf,
      debugOf]
  have hnf : ∀ c ∈ [exRun, exTrue], evalStatus c ≠ .FAILURE := by
    intro c hc
    simp only [List.mem_cons, List.mem_singleton, List.not_mem_nil, or_false] at hc
    rcases hc with hc | hc
    · subst hc; rw [hsR]; exact fun h => by cases h
    · subst hc; rw [hsT]; exact fun h => by cases h
  have hfail := (paralell_semantics exData [exRun, exFalse]).1 [exRun] exFalse [] rfl hsF
  have hok := (paralell_semantics exData [exRun, exTrue]).2 hnf
  refine ⟨hsF, hfail.1, hfail.2, hnf, hok.1, ?_⟩
  rw [hok.2]
  have : ([exRun, exTrue].any (fun c => evalStatus c == .RUNNING)) = true := by
    simp only [List.any_cons, List.any_nil]
    rw [hsR]
    rfl
  rw [this]
  rfl

/-- **C10** — When a Selector or Sequence evaluation short-circuits at
the child in position `i` (children split as `pre ++ x :: post` with
`i = pre.length`), the children at positions greater than `i` are left
exactly as they were before the composite's tick — cached `state`
fields included — since those children are not evaluated. -/
theorem short_circuit_frame {T : Type} (d : NodeData T) (pre : List (Node T)) (x : Node T)
    (post : List (Node T)) :
    ((∀ b ∈ pre, evalStatus b = .FAILURE) → evalStatus x ≠ .FAILURE →
      (childrenOf (evalTree (.selectorBranch d (pre ++ x :: post)))).drop (pre.length + 1)
        = post)
    ∧ ((∀ b ∈ pre, evalStatus b = .SUCCESS) → evalStatus x ≠ .SUCCESS →
      (childrenOf (evalTree (.sequenceBranch d (pre ++ x :: post)))).drop (pre.length + 1)
        = post) := by
  constructor
  · intro hpre hx
    rw [children_evalTree_selector]
    exact (selScan_first pre x post hpre hx).2
  · intro hpre hx
    rw [children_evalTree_sequence]
    exact (seqScan_first pre x post hpre hx).2

/-- Witness for `short_circuit_frame`: with children
[`FAILURE` leaf, `SUCCESS` leaf, `RUNNING` leaf] a Selector stops at the
second child, and with children [`SUCCESS` leaf, `FAILURE` leaf,
`RUNNING` leaf] a Sequence stops at the second child; in both cases the
third child is left untouched. -/
theorem short_circuit_frame_witness :
    ((∀ b ∈ [exFalse], evalStatus b = .FAILURE)
      ∧ evalStatus exTrue ≠ .FAILURE
      ∧ (childrenOf (evalTree (.selectorBranch exData [exFalse, exTrue, exRun]))).drop 2
          = [exRun])
    ∧ ((∀ b ∈ [exTrue], evalStatus b = .SUCCESS)
      ∧ evalStatus exFalse ≠ .SUCCESS
      ∧ (childrenOf (evalTree (.sequenceBranch exData [exTrue, exFalse, exRun]))).drop 2
          = [exRun]) := by
  have hsF : evalStatus exFalse = .FAILURE := by
    simp [exFalse, exData, evalStatus, nodeEval, nodeEvaluate, setState, setData, dataOf,
      debugOf]
  have hsT : evalStatus exTrue = .SUCCESS := by
    simp [exTrue, exData, evalStatus, nodeEval, nodeEvaluate, setState, setData, dataOf,
      debugOf]
  have h1 : ∀ b ∈ [exFalse], evalStatus b = .FAILURE := by
    intro b hb
    simp only [List.mem_singleton] at hb
    subst hb
    exact hsF
  have h2 : evalStatus exTrue ≠ .FAILURE := by rw [hsT]; exact fun h => by cases h
  have h3 : ∀ b ∈ [exTrue], evalStatus b = .SUCCESS := by
    intro b hb
    simp only [List.mem_singleton] at hb
    subst hb
    exact hsT
  have h4 : evalStatus exFalse ≠ .SUCCESS := by rw [hsF]; exact fun h => by cases h
  exact ⟨⟨h1, h2, (short_circuit_frame exData [exFalse] exTrue [exRun]).1 h1 h2⟩,
    ⟨h3, h4, (short_circuit_frame exData [exTrue] exFalse [exRun]).2 h3 h4⟩⟩

/-- **C4** — Constructing the tree driver (`BehaviorTree`, which builds
the internal `Root`) from a null context fails with the initialization
error synchronously during construction: the constructor's result is
the error itself, so no driver value exists and no tick is possible;
nothing catches or retries it internally. -/
theorem behaviorTree_null_context_error {T : Type} (tree : Node T) :
    mkBehaviorTree none tree = .error "Context not initialized." := by
  rw [mkBehaviorTree, mkRoot]

/-- **C5** — For every node kind, decorators included, invoking
`_propagate_context` on a node whose own context is unset raises the
initialization error: branches and leaves raise it at their own check,
and a decorator (whose override itself has no check) hands the null
context to its single child, from which the recursive check raises
it — so the error is raised below the driver/root at every node on
which the call is made with an unset context. -/
theorem propagate_unset_context_error {T : Type} (n : Node T) (h : contextOf n = none) :
    propagateTop n = .error "Context not initialized" := by
  rw [propagateTop, h]
  exact propagateNode_none (debugOf n) n

/-- Witness for `propagate_unset_context_error`: an `Inverter` (a
decorator) with unset context raises the initialization error when its
`_propagate_context` is invoked. -/
theorem propagate_unset_context_error_witness :
    contextOf (Node.decorator exData invert exTrue) = none
    ∧ propagateTop (Node.decorator exData invert exTrue)
        = .error "Context not initialized" := by
  have h : contextOf (Node.decorator exData invert exTrue) = none := rfl
  exact ⟨h, propagate_unset_context_error (.decorator exData invert exTrue) h⟩

/-- **C6** — `Inverter::decorate` maps `SUCCESS` to `FAILURE`,
`FAILURE` to `SUCCESS` and `RUNNING` to `RUNNING`; and the Inverter's
own evaluation is exactly this transform applied to the status its
child's `eval` freshly computed. -/
theorem inverter_semantics {T : Type} (d : NodeData T) (child : Node T) :
    invert .SUCCESS = .FAILURE
    ∧ invert .FAILURE = .SUCCESS
    ∧ invert .RUNNING = .RUNNING
    ∧ evalStatus (.decorator d invert child) = invert (evalStatus child) := by
  refine ⟨rfl, rfl, rfl, ?_⟩
  rw [evalStatus_eq_evaluate, nodeEvaluate]
  rfl

/-- **C7** — For every node, `eval` stores the result computed by the
node's `_evaluate` override into the cached `state` field and returns
that same value (so immediately after any tick the stored state equals
the returned one), and appends the `<name>: <status>` trace line
exactly when the node's `DEBUG` flag is set. -/
theorem eval_stores_and_returns {T : Type} (n : Node T) :
    stateOf (evalTree n) = evalStatus n
    ∧ evalStatus n = (nodeEvaluate n).2.1
    ∧ evalTrace n = (nodeEvaluate n).2.2
        ++ (if debugOf n then [traceLine (nameOf n) (nodeEvaluate n).2.1] else []) := by
  refine ⟨stateOf_nodeEval_fst n, evalStatus_eq_evaluate n, ?_⟩
  have hd : debugOf (setState (nodeEvaluate n).1 (nodeEvaluate n).2.1) = debugOf n := by
    rw [debugOf_setState]
    simp [debugOf, dataOf_nodeEvaluate]
  have hn : nameOf (setState (nodeEvaluate n).1 (nodeEvaluate n).2.1) = nameOf n := by
    rw [nameOf_setState]
    simp [nameOf, dataOf_nodeEvaluate]
  simp only [evalTrace, nodeEval, hd, hn]

/-- **C8** — A ConditionLeaf's `_evaluate` returns `SUCCESS` when the
consumer-supplied `condition()` yields `true` and `FAILURE` when it
yields `false`; in particular, for every possible condition result it
never yields `RUNNING`. -/
theorem condition_leaf_semantics {T : Type} (d : NodeData T) (b : Bool) :
    evalStatus (.conditionLeaf d b) = (if b then .SUCCESS else .FAILURE)
    ∧ evalStatus (.conditionLeaf d b) ≠ .RUNNING := by
  have h : evalStatus (.conditionLeaf d b) = (if b then .SUCCESS else .FAILURE) := by
    rw [evalStatus_eq_evaluate, nodeEvaluate]
  refine ⟨h, ?_⟩
  rw [h]
  cases b <;> simp

/-- **C9** is refuted as stated: in the tree `cexTree`, the debug flag
is set on the leaf before propagation, the driver context is non-null,
yet after driver construction (which runs the propagation pass) the
flag on that leaf is cleared — `IDecorator::_propagate_context`
overwrites its child's `DEBUG` with its own (unset) flag instead of
cascading only set flags. -/
theorem debug_cascade_counterexample :
    debugOf cexLeaf = true
    ∧ (mkRoot (some 0) cexTree).map (fun r => decoratorChildDebug r.child)
        = .ok false := by
  refine ⟨rfl, ?_⟩
  rw [mkRoot]
  have hd : debugOf cexTree = false := rfl
  rw [hd]
  have h : propagateNode (some 0) false cexTree
      = .ok (.decorator ⟨"Inverter", some 0, NodeState.FAILURE, false⟩ invert
          (.conditionLeaf ⟨"leaf", some 0, NodeState.FAILURE, false⟩ true)) := by
    rw [cexTree, propagateNode, cexLeaf, propagateNode]
    rfl
  rw [h]
  rfl

/-- **C9** (amended) — After propagation with a non-null context: a
node whose debug flag is effectively set when propagation reaches it —
the base child loop passes `(parent set ? true : child flag)`, so a
pre-set flag survives arrival from the root or from any composite —
ends with the flag set on itself and on every descendant; and a sibling
with the flag unset, reached from an unflagged composite parent, keeps
its flag unset.  (Arrival through a decorator is excluded: a decorator
overwrites its child's flag with its own, as the counterexample
shows.) -/
theorem debug_cascade_amended {T : Type} (c : T) (n sib : Node T) (dbg : Bool)
    (hn : debugOf n = true) (hs : debugOf sib = false) :
    (∃ n2, propagateNode (some c) (if dbg then true else debugOf n) n = .ok n2
      ∧ allDebug n2 = true)
    ∧ (∃ s2, propagateNode (some c) (if (false : Bool) then true else debugOf sib) sib
        = .ok s2 ∧ debugOf s2 = false) := by
  constructor
  · have h : (if dbg then true else debugOf n) = true := by
      rw [hn]
      exact ite_self true
    rw [h]
    exact propagateNode_true_allDebug c n
  · have h : (if (false : Bool) then true else debugOf sib) = false := by
      rw [hs]
      rfl
    rw [h]
    exact propagateNode_some_ok c false sib

/-- Witness for `debug_cascade_amended`: a flagged leaf reached from an
unflagged parent ends fully flagged; an unflagged sibling leaf stays
unflagged. -/
theorem debug_cascade_amended_witness :
    debugOf cexLeaf = true ∧ debugOf exTrue = false
    ∧ ((∃ n2, propagateNode (some 0) (if false then true else debugOf cexLeaf) cexLeaf
          = .ok n2 ∧ allDebug n2 = true)
      ∧ (∃ s2, propagateNode (some 0) (if (false : Bool) then true else debugOf exTrue) exTrue
          = .ok s2 ∧ debugOf s2 = false)) := by
  have h1 : debugOf cexLeaf = true := rfl
  have h2 : debugOf exTrue = false := rfl
  exact ⟨h1, h2, debug_cascade_amended 0 cexLeaf exTrue false h1 h2⟩

end BHT
